import Mathlib

/-!
# tastebase — verification of the recipe ingestion pipeline and search ranker

Shallow embedding of the tastebase repository (TypeScript) in Lean 4.

Embedded components, with the source files they are translated from:
* LLM recipe parsing and normalization      — `src/llm/service.ts`
  (`RecipeParsedSchema`, `RecipeRawSchema`, `parseRecipe`)
* the recipe pipeline and its three steps   — `src/recipe/job.ts`
  (`transcriptStep`, `recipeStep`, `saveStep`, `processRecipePipeline`)
* source registration / dedup               — `src/recipe/service.ts` (generator
  variant, `processRecipeFromSource`, `getRecipeByExternalId`, `createRecipeSource`)
* hybrid search ranking                     — `searchRecipes`
* the database tables                       — `src/db/schema.ts`
  (`recipe_sources`, `recipes`, `embeddings`, `recipe_jobs`, `job_steps`,
  `content_items`), modelled as in-memory lists of rows.

External collaborators (YouTube transcript fetch, the LLM structuring call, the
embedding model, pgvector's `cosineDistance` primitive and Postgres'
`ts_rank_cd` primitive) are modelled as oracle inputs, following the system's
own interface boundary: the code only observes their success/failure and their
returned value.

Database conventions of the model: each table is a list of rows whose list
order is the physical row order (which SQL does not promise to be insertion
order for an un-`ORDER BY`-ed scan); `serial` primary keys are explicit
`next…Id` counters; a `db.transaction` either commits all of its writes or
leaves the state unchanged; a promise rejection that the code does not catch
is modelled as `Option.none` (a crash), while rejections the code catches are
turned into the corresponding error event, exactly as in the source.
-/

/-- One ingredient of a recipe: `{ name, quantity-or-null }`
(`src/recipe/type.ts`, `Ingredient`). -/
structure Ingredient where
  name : String
  quantity : Option String
  deriving DecidableEq, Repr

/-- The LLM's raw structured output (`RecipeRawSchema` in `src/llm/service.ts`):
`name` and `instructions` are nullable, `error` is an optional/nullable object
carrying a rejection reason. -/
structure RawRecipe where
  name : Option String
  instructions : Option String
  ingredients : List Ingredient
  tags : List String
  errorReason : Option String
  deriving DecidableEq, Repr

/-- A recipe after `RecipeParsedSchema` validation (`ParsedRecipe` in
`src/llm/service.ts`): non-null name/instructions, normalized and deduplicated
ingredients and tags, and no `error` field. -/
structure ParsedRecipe where
  name : String
  instructions : String
  ingredients : List Ingredient
  tags : List String
  deriving DecidableEq, Repr

/-- JS `String.prototype.trim` whitespace test (ASCII whitespace suffices for
the inputs considered here). -/
def isWhitespaceChar (c : Char) : Bool :=
  c = ' ' || c = '\t' || c = '\n' || c = '\r'

/-- JS `String.prototype.toLowerCase` on one character (ASCII case mapping). -/
def toLowerChar (c : Char) : Char :=
  if 'A' ≤ c && c ≤ 'Z' then Char.ofNat (c.toNat + 32) else c

/-- `trim`: drop whitespace from both ends of the character list. -/
def trimChars (l : List Char) : List Char :=
  ((l.dropWhile isWhitespaceChar).reverse.dropWhile isWhitespaceChar).reverse

/-- The normalization applied by `RecipeParsedSchema`'s field transforms:
`value.trim().toLowerCase()`, modelled over the string's character list. -/
def normStr (s : String) : String :=
  ⟨(trimChars s.data).map toLowerChar⟩

/-- Field transform on one ingredient: the name is trimmed and lowercased, the
quantity is left untouched. -/
def normIngredient (i : Ingredient) : Ingredient :=
  { i with name := normStr i.name }

/-- The ingredient-deduplication loop of `RecipeParsedSchema`'s object-level
transform: walk the (already normalized) list, keep an entry only if its name
was not seen before. `seen` is the `seenIngredientNames` set. -/
def dedupeIngredients (seen : List String) : List Ingredient → List Ingredient
  | [] => []
  | i :: rest =>
    if i.name ∈ seen then dedupeIngredients seen rest
    else i :: dedupeIngredients (i.name :: seen) rest

/-- `Array.from(new Set(tags))`: deduplication keeping the first occurrence of
each string, in first-occurrence order. -/
def dedupeTags (seen : List String) : List String → List String
  | [] => []
  | t :: rest =>
    if t ∈ seen then dedupeTags seen rest
    else t :: dedupeTags (t :: seen) rest

/-- `RecipeParsedSchema.safeParse` applied to the raw object after
`delete result.object.error` (`src/llm/service.ts` lines 94–121): fails iff a
required string field (`name`, `instructions`) is null; on success normalizes
name, ingredient names and tags, dedupes ingredients by normalized name and
tags as a set, both keeping first occurrences. -/
def recipeParsedSafeParse (name instructions : Option String)
    (ingredients : List Ingredient) (tags : List String) : Option ParsedRecipe :=
  match name, instructions with
  | some n, some instr =>
    some
      { name := normStr n
        instructions := instr
        ingredients := dedupeIngredients [] (ingredients.map normIngredient)
        tags := dedupeTags [] (tags.map normStr) }
  | _, _ => none

/-- `result.object.error?.reason` truthiness: the error object is present and
its reason is a non-empty string. -/
def hasErrorReason (raw : RawRecipe) : Bool :=
  match raw.errorReason with
  | some r => r ≠ ""
  | none => false

/-- `parseRecipe` (`src/llm/service.ts` lines 10–34), applied to the LLM's raw
output: throw when `error.reason` is truthy, otherwise delete the error field,
validate with `RecipeParsedSchema` and throw on validation failure; on success
return the parsed recipe. `Except.error` models the thrown `Error`. -/
def parseRecipe (raw : RawRecipe) : Except String ParsedRecipe :=
  if hasErrorReason raw then
    .error ((raw.errorReason).getD "")
  else
    match recipeParsedSafeParse raw.name raw.instructions raw.ingredients raw.tags with
    | some parsed => .ok parsed
    | none => .error "Schema validation failed"

/-- An embedding vector (OpenAI returns a fixed-dimension numeric vector; its
numeric content is opaque to the pipeline, which only stores and compares it
through the store's vector primitive). -/
abbrev Vec : Type := List Rat

/-- A `recipe_sources` row (`src/db/schema.ts`): surrogate id, external id and
source type, with a uniqueness constraint on `(external_id, type)`. -/
structure SourceRow where
  id : Nat
  external_id : String
  type : String
  deriving DecidableEq, Repr

/-- A `recipes` row. -/
structure RecipeRow where
  id : Nat
  recipe_source_id : Nat
  name : String
  instructions : String
  ingredients : List Ingredient
  tags : List String
  deriving DecidableEq, Repr

/-- An `embeddings` row; `data` is a nullable vector column. -/
structure EmbeddingRow where
  id : Nat
  recipe_id : Nat
  type : String
  data : Option Vec
  deriving DecidableEq, Repr

/-- A `content_items` row (best-effort intermediate artifact). -/
structure ContentItemRow where
  id : Nat
  recipe_source_id : Nat
  pipeline_step : String
  data : String
  deriving DecidableEq, Repr

/-- A `job_steps` row (status defaults to `"created"`). -/
structure JobStepRow where
  id : Nat
  job_id : Nat
  type : String
  order : Nat
  status : String
  deriving DecidableEq, Repr

/-- The relational store. Each list holds a table's rows in physical order;
`next…Id` counters model the `serial` primary keys. -/
structure DbState where
  sources : List SourceRow
  recipes : List RecipeRow
  embeddings : List EmbeddingRow
  contentItems : List ContentItemRow
  jobSteps : List JobStepRow
  nextSourceId : Nat
  nextRecipeId : Nat
  nextEmbeddingId : Nat
  nextContentItemId : Nat
  deriving DecidableEq, Repr

/-- The pipeline events of `src/recipe/type.ts`: three success events carrying
data and the three error classes of `RecipePipelineErrors`. -/
inductive PipelineEvent
  | transcriptGenerated (data : String)
  | recipeGenerated (data : ParsedRecipe)
  | recipeSaved (recipeId : Nat)
  | transcriptGenerationFailed
  | recipeGenerationFailed
  | recipeSavingFailed
  deriving DecidableEq, Repr

/-- `event.type in RecipePipelineErrors` — the test `processRecipePipeline`
uses for its early exit. -/
def PipelineEvent.isError : PipelineEvent → Bool
  | .transcriptGenerationFailed => true
  | .recipeGenerationFailed => true
  | .recipeSavingFailed => true
  | _ => false

/-- The outcomes of the external collaborators during one pipeline run,
fixed up front (each external call is made at most once per run):
* `transcript` — result of `YoutubeService.getTranscript` (`none` = rejection);
* `contentInsertFails` — whether the best-effort `content_items` insert rejects;
* `llmRaw` — the LLM's raw output inside `LlmService.parseRecipe`
  (`none` = the provider call itself rejects);
* `embedding` — result of `LlmService.generateRecipeEmbedding` (`none` = rejection);
* `recipeInsertFails` / `embeddingInsertFails` — whether the two inserts inside
  the final transaction reject;
* `videoInfoOk` — whether `YoutubeService.getVideoInfo` resolves. -/
structure World where
  transcript : Option String
  contentInsertFails : Bool
  llmRaw : Option RawRecipe
  embedding : Option Vec
  recipeInsertFails : Bool
  embeddingInsertFails : Bool
  videoInfoOk : Bool
  deriving DecidableEq, Repr

/-- The `PipelineContext` of `src/recipe/type.ts`: the recipe source, the
database handle (its state), and the in-memory outputs of prior steps. The
world oracle stands for the external collaborators reachable through the
context (YouTube client, LLM provider). -/
structure Ctx where
  recipeSource : SourceRow
  db : DbState
  world : World
  transcript : Option String
  recipe : Option ParsedRecipe
  deriving DecidableEq, Repr

/-- A pipeline step (`PipelineStep`): consumes the context, returns an event
and the updated context. `none` models an exception the step does not catch
(only `saveStep`'s `ensureDefined(ctx.recipe)` assertion can do this). -/
def PipelineStep : Type := Ctx → Option (PipelineEvent × Ctx)

/-- `transcriptStep` (`src/recipe/job.ts` lines 52–84): fetch the transcript
(rejection → `TranscriptGenerationFailed`), then insert a `content_items` row;
a failure of that insert is only logged and does not fail the step. -/
def transcriptStep : PipelineStep := fun ctx =>
  match ctx.world.transcript with
  | none => some (.transcriptGenerationFailed, ctx)
  | some t =>
    let ctx' := { ctx with transcript := some t }
    let db' :=
      if ctx'.world.contentInsertFails then ctx'.db
      else
        { ctx'.db with
          contentItems :=
            ctx'.db.contentItems ++
              [{ id := ctx'.db.nextContentItemId
                 recipe_source_id := ctx'.recipeSource.id
                 pipeline_step := "transcriptGenerated"
                 data := t }]
          nextContentItemId := ctx'.db.nextContentItemId + 1 }
    some (.transcriptGenerated t, { ctx' with db := db' })

/-- `recipeStep` (`src/recipe/job.ts` lines 87–106): run `parseRecipe` on the
transcript; any rejection (provider failure, LLM rejection, schema validation)
becomes `RecipeGenerationFailed`. -/
def recipeStep : PipelineStep := fun ctx =>
  match ctx.world.llmRaw with
  | none => some (.recipeGenerationFailed, ctx)
  | some raw =>
    match parseRecipe raw with
    | .error _ => some (.recipeGenerationFailed, ctx)
    | .ok parsed => some (.recipeGenerated parsed, { ctx with recipe := some parsed })

/-- `saveStep` (`src/recipe/job.ts` lines 112–151): assert the parsed recipe is
present (`ensureDefined` — an uncaught throw, modelled as `none`), generate the
embedding, then in a single transaction insert the `recipes` row and the
`embeddings` row referencing it; any rejection inside the chain becomes
`RecipeSavingFailed` with the transaction rolled back (state unchanged). -/
def saveStep : PipelineStep := fun ctx =>
  match ctx.recipe with
  | none => none
  | some recipe =>
    match ctx.world.embedding with
    | none => some (.recipeSavingFailed, ctx)
    | some vec =>
      if ctx.world.recipeInsertFails then some (.recipeSavingFailed, ctx)
      else if ctx.world.embeddingInsertFails then some (.recipeSavingFailed, ctx)
      else
        let rid := ctx.db.nextRecipeId
        let db' :=
          { ctx.db with
            recipes :=
              ctx.db.recipes ++
                [{ id := rid
                   recipe_source_id := ctx.recipeSource.id
                   name := recipe.name
                   instructions := recipe.instructions
                   ingredients := recipe.ingredients
                   tags := recipe.tags }]
            embeddings :=
              ctx.db.embeddings ++
                [{ id := ctx.db.nextEmbeddingId
                   recipe_id := rid
                   type := "text"
                   data := some vec }]
            nextRecipeId := rid + 1
            nextEmbeddingId := ctx.db.nextEmbeddingId + 1 }
        some (.recipeSaved rid, { ctx with db := db' })

/-- The ordered step list (`RecipePipeline` in `src/recipe/job.ts` line 49). -/
def RecipePipeline : List PipelineStep := [transcriptStep, recipeStep, saveStep]

/-- The generator loop of `processRecipePipeline`: run the steps in order,
yield each step's event, and return right after the first error event
(`if (event.type in RecipePipelineErrors) return`). The result is the list of
yielded events and the final context — `none` when a step crashed (its events
up to the crash are still the ones already yielded). -/
def runPipeline : List PipelineStep → Ctx → List PipelineEvent × Option Ctx
  | [], ctx => ([], some ctx)
  | step :: rest, ctx =>
    match step ctx with
    | none => ([], none)
    | some (event, ctx') =>
      if event.isError then ([event], some ctx')
      else
        let r := runPipeline rest ctx'
        (event :: r.1, r.2)

/-- `processRecipePipeline` (`src/recipe/job.ts` lines 153–180): build the
context and run `RecipePipeline.slice(startFrom)`. -/
def processRecipePipeline (recipeSource : SourceRow) (db : DbState) (w : World)
    (startFrom : Nat := 0) : List PipelineEvent × Option Ctx :=
  runPipeline (RecipePipeline.drop startFrom)
    { recipeSource := recipeSource, db := db, world := w,
      transcript := none, recipe := none }

/-- The caller-supplied reference after URL parsing (`new URL(url)`): hostname
and the `/`-split path segments. The platform's URL parser is outside the
embedding; its output is the input here. -/
structure UrlParts where
  hostname : String
  pathParts : List String
  deriving DecidableEq, Repr

/-- `youtubeShortsRecipeSchema` (`src/recipe/schema.ts`): accept exactly
`https://www.youtube.com/shorts/{id}` — hostname `www.youtube.com`, three path
segments `["", "shorts", id]` with a non-empty id — and transform to the video
id. -/
def validateYoutubeShorts (u : UrlParts) : Option String :=
  if u.hostname = "www.youtube.com" ∧ u.pathParts.length = 3 ∧
      u.pathParts.get? 1 = some "shorts" ∧ u.pathParts.get? 2 ≠ some "" then
    u.pathParts.get? 2
  else
    none

/-- `getRecipeByExternalId` (service, generator variant): select the first row
of `recipes` inner-joined with `recipe_sources` on
`recipe_source_id = sources.id ∧ sources.external_id = externalId`. (The
source's `type` parameter is accepted but not part of the join condition,
exactly as in the code.) -/
def getRecipeByExternalId (externalId : String) (db : DbState) : Option RecipeRow :=
  db.recipes.find? fun r =>
    (db.sources.find? fun s =>
        s.id = r.recipe_source_id ∧ s.external_id = externalId).isSome

/-- Errors a database insert can reject with. -/
inductive DbError
  | uniqueViolation
  deriving DecidableEq, Repr

/-- `createRecipeSource` (service, generator variant): plain insert of a
`recipe_sources` row. The `(external_id, type)` uniqueness constraint makes the
insert reject on a duplicate pair; the function has no conflict handling, so
the rejection surfaces to the caller as `Except.error`. -/
def createRecipeSource (type externalId : String) (db : DbState) :
    Except DbError (SourceRow × DbState) :=
  if db.sources.any fun s => s.external_id = externalId ∧ s.type = type then
    .error .uniqueViolation
  else
    let row : SourceRow := { id := db.nextSourceId, external_id := externalId, type := type }
    .ok (row, { db with sources := db.sources ++ [row], nextSourceId := db.nextSourceId + 1 })

/-- The events `processRecipeFromSource` can yield: the three synchronous
rejections plus the streamed pipeline events. -/
inductive ServiceEvent
  | recipeInputValidationFailed
  | recipeAlreadyExists (recipeId : Nat)
  | videoUnavailable
  | pipeline (e : PipelineEvent)
  deriving DecidableEq, Repr

/-- `processRecipeFromSource` (service, generator variant): validate the input
shape (failure → yield `RecipeInputValidationFailed`, stop); look up an already
committed recipe by external id (hit → yield `RecipeAlreadyExists`, stop);
check the video exists via `getVideoInfo` (rejection → yield
`VideoUnavailable`, stop); insert the `recipe_sources` row (an uncaught insert
rejection crashes the generator — result `none`); then delegate to
`processRecipePipeline`, forwarding every pipeline event. Returns the yielded
events and the final database state (`none` = crash). -/
def processRecipeFromSource (input : UrlParts) (db : DbState) (w : World) :
    List ServiceEvent × Option DbState :=
  match validateYoutubeShorts input with
  | none => ([.recipeInputValidationFailed], some db)
  | some externalId =>
    match getRecipeByExternalId externalId db with
    | some recipe => ([.recipeAlreadyExists recipe.id], some db)
    | none =>
      if !w.videoInfoOk then ([.videoUnavailable], some db)
      else
        match createRecipeSource "youtube-shorts" externalId db with
        | .error _ => ([], none)
        | .ok (src, db') =>
          let r := processRecipePipeline src db' w
          (r.1.map .pipeline, r.2.map Ctx.db)

/-- A row of the `searchRecipes` result set. -/
structure ScoredRow where
  similarity : Rat
  keywordScore : Rat
  finalScore : Rat
  recipe : RecipeRow

/-- Stable insertion into a list sorted by `finalScore` descending: a row is
placed after every earlier row whose score is at least its own (the tie order
is therefore the scan order, matching a sort that guarantees nothing beyond
the `ORDER BY` key). -/
def insertByScore (a : ScoredRow) : List ScoredRow → List ScoredRow
  | [] => [a]
  | b :: rest =>
    if b.finalScore ≤ a.finalScore then a :: b :: rest
    else b :: insertByScore a rest

/-- `ORDER BY finalScore DESC` as a stable sort over the scan order. -/
def sortByScoreDesc : List ScoredRow → List ScoredRow
  | [] => []
  | a :: rest => insertByScore a (sortByScoreDesc rest)

/-- The scan of `embeddings INNER JOIN recipes ON embeddings.recipe_id =
recipes.id`, in physical row order. -/
def joinEmbeddingsRecipes (db : DbState) : List (EmbeddingRow × RecipeRow) :=
  db.embeddings.flatMap fun e =>
    (db.recipes.filter fun r => r.id = e.recipe_id).map fun r => (e, r)

/-- The select list of `searchRecipes`, per joined row:
`similarity = 1 - cosineDistance(embedding.data, queryEmbeddings)`,
`keywordScore = ts_rank_cd(...)` and
`finalScore = 0.7 * similarity + 0.3 * keywordScore`. `cosineDist` and
`tsRank` are the store's vector-similarity and ranked-text primitives,
external collaborators taking the row's stored data and the query. -/
def scoreRow (cosineDist : Option Vec → Rat) (tsRank : RecipeRow → Rat)
    (er : EmbeddingRow × RecipeRow) : ScoredRow :=
  let similarity : Rat := 1 - cosineDist er.1.data
  let keywordScore : Rat := tsRank er.2
  { similarity := similarity
    keywordScore := keywordScore
    finalScore := (7 : Rat)/10 * similarity + (3 : Rat)/10 * keywordScore
    recipe := er.2 }

/-- `searchRecipes` (service, lines 104–136): score each row of
`embeddings INNER JOIN recipes` and return them ordered by `finalScore`
descending — the query's only `ORDER BY` key. -/
def searchRecipes (cosineDist : Option Vec → Rat) (tsRank : RecipeRow → Rat)
    (db : DbState) : List ScoredRow :=
  sortByScoreDesc ((joinEmbeddingsRecipes db).map (scoreRow cosineDist tsRank))

/-! ## Lemmas about the pipeline executor -/

/-- After the first error event the executor's loop returns: the events of the
remaining steps never appear, and the whole run equals the run of only the
steps up to and including the failing one. -/
theorem runPipeline_error_halt (steps : List PipelineStep) (ctx : Ctx) (k : Nat)
    (e : PipelineEvent) (hk : (runPipeline steps ctx).1.get? k = some e)
    (he : e.isError = true) :
    k + 1 = (runPipeline steps ctx).1.length ∧
    runPipeline steps ctx = runPipeline (steps.take (k + 1)) ctx := by
  induction steps generalizing ctx k with
  | nil => simp [runPipeline] at hk
  | cons s rest ih =>
    cases hs : s ctx with
    | none => simp [runPipeline, hs] at hk
    | some p =>
      obtain ⟨ev, ctx'⟩ := p
      by_cases herr : ev.isError = true
      · have htrace : runPipeline (s :: rest) ctx = ([ev], some ctx') := by
          simp [runPipeline, hs, herr]
        rw [htrace] at hk
        cases k with
        | zero =>
          constructor
          · rw [htrace]
            rfl
          · rw [htrace]
            simp [runPipeline, hs, herr, List.take]
        | succ n => simp at hk
      · have htrace : runPipeline (s :: rest) ctx =
            ((ev :: (runPipeline rest ctx').1), (runPipeline rest ctx').2) := by
          simp [runPipeline, hs, herr]
        rw [htrace] at hk
        cases k with
        | zero =>
          simp at hk
          rw [hk] at herr
          exact absurd he herr
        | succ n =>
          simp only [List.get?] at hk
          obtain ⟨hlen, hrun⟩ := ih ctx' n hk
          constructor
          · rw [htrace]
            simp [← hlen]
          · rw [htrace]
            have : runPipeline ((s :: rest).take (n + 1 + 1)) ctx =
                ((ev :: (runPipeline (rest.take (n + 1)) ctx').1),
                  (runPipeline (rest.take (n + 1)) ctx').2) := by
              simp [List.take, runPipeline, hs, herr]
            rw [this, ← hrun]

/-- Every step of the concrete pipeline leaves the `job_steps` table untouched:
none of `transcriptStep`, `recipeStep`, `saveStep` writes to it. -/
theorem recipePipeline_steps_preserve_jobSteps :
    ∀ step ∈ RecipePipeline, ∀ ctx ev ctx', step ctx = some (ev, ctx') →
      ctx'.db.jobSteps = ctx.db.jobSteps := by
  intro step hstep ctx ev ctx' h
  simp only [RecipePipeline, List.mem_cons, List.mem_singleton] at hstep
  rcases hstep with h1 | h2 | h3 | hfalse
  · subst h1
    unfold transcriptStep at h
    cases htr : ctx.world.transcript with
    | none => rw [htr] at h; simp at h; rw [← h.2]
    | some t =>
      rw [htr] at h
      simp at h
      rw [← h.2]
      by_cases hins : ctx.world.contentInsertFails <;> simp [hins]
  · subst h2
    unfold recipeStep at h
    cases hraw : ctx.world.llmRaw with
    | none => rw [hraw] at h; simp at h; rw [← h.2]
    | some raw =>
      cases hp : parseRecipe raw with
      | error msg => simp [hraw, hp] at h; rw [← h.2]
      | ok parsed => simp [hraw, hp] at h; rw [← h.2]
  · subst h3
    unfold saveStep at h
    cases hrec : ctx.recipe with
    | none => rw [hrec] at h; simp at h
    | some recipe =>
      rw [hrec] at h
      cases hemb : ctx.world.embedding with
      | none => rw [hemb] at h; simp at h; rw [← h.2]
      | some vec =>
        rw [hemb] at h
        by_cases hri : ctx.world.recipeInsertFails
        · simp [hri] at h; rw [← h.2]
        · by_cases hei : ctx.world.embeddingInsertFails
          · simp [hri, hei] at h; rw [← h.2]
          · simp [hri, hei] at h; rw [← h.2]
  · exact absurd hfalse (by simp)

/-- If every step of a list preserves the `job_steps` table, so does running
the list (and any suffix reached by `drop`). -/
theorem runPipeline_preserves_jobSteps (steps : List PipelineStep)
    (hsteps : ∀ step ∈ steps, ∀ ctx ev ctx', step ctx = some (ev, ctx') →
      ctx'.db.jobSteps = ctx.db.jobSteps)
    (ctx ctxEnd : Ctx) (h : (runPipeline steps ctx).2 = some ctxEnd) :
    ctxEnd.db.jobSteps = ctx.db.jobSteps := by
  induction steps generalizing ctx with
  | nil =>
    simp [runPipeline] at h
    rw [← h]
  | cons s rest ih =>
    cases hs : s ctx with
    | none => simp [runPipeline, hs] at h
    | some p =>
      obtain ⟨ev, ctx'⟩ := p
      have hstep := hsteps s (by simp) ctx ev ctx' hs
      by_cases herr : ev.isError = true
      · simp [runPipeline, hs, herr] at h
        rw [← h, hstep]
      · simp [runPipeline, hs, herr] at h
        have := ih (fun st hst => hsteps st (by simp [hst])) ctx' h
        rw [this, hstep]

/-! ## C1 — a failure event halts the pipeline -/

/-- **C1**: once a pipeline step returns a failure event, `processRecipePipeline`
terminates: the failure event is the last event yielded; the run equals the run
of only the steps up to and including the failing one, so no step of higher
order is ever invoked; and the `job_steps` rows are untouched, so the statuses
of all later steps remain `created` (skipped). -/
theorem processRecipePipeline_failure_halts
    (src : SourceRow) (db : DbState) (w : World) (startFrom k : Nat)
    (e : PipelineEvent)
    (hk : (processRecipePipeline src db w startFrom).1.get? k = some e)
    (he : e.isError = true)
    (hcreated : ∀ s ∈ db.jobSteps, s.status = "created") :
    k + 1 = (processRecipePipeline src db w startFrom).1.length ∧
    processRecipePipeline src db w startFrom =
      runPipeline ((RecipePipeline.drop startFrom).take (k + 1))
        { recipeSource := src, db := db, world := w,
          transcript := none, recipe := none } ∧
    ∀ ctxEnd, (processRecipePipeline src db w startFrom).2 = some ctxEnd →
      ctxEnd.db.jobSteps = db.jobSteps ∧
      ∀ s ∈ ctxEnd.db.jobSteps, s.status = "created" := by
  unfold processRecipePipeline at *
  obtain ⟨hlen, hrun⟩ := runPipeline_error_halt _ _ k e hk he
  refine ⟨hlen, hrun, ?_⟩
  intro ctxEnd hEnd
  have hpres : ctxEnd.db.jobSteps = db.jobSteps :=
    runPipeline_preserves_jobSteps (RecipePipeline.drop startFrom)
      (fun st hst => recipePipeline_steps_preserve_jobSteps st
        (List.drop_subset startFrom RecipePipeline hst))
      _ ctxEnd hEnd
  exact ⟨hpres, fun s hs => hcreated s (hpres ▸ hs)⟩

/-- Shared concrete recipe source for witnesses. -/
def srcW : SourceRow := { id := 1, external_id := "v1", type := "youtube-shorts" }

/-- Shared concrete database: one registered source, a job's three steps all in
status `created`, and no committed recipe yet. -/
def dbW : DbState :=
  { sources := [srcW]
    recipes := []
    embeddings := []
    contentItems := []
    jobSteps :=
      [ { id := 1, job_id := 1, type := "extract_instructions", order := 0, status := "created" }
      , { id := 2, job_id := 1, type := "parse_recipe", order := 1, status := "created" }
      , { id := 3, job_id := 1, type := "create_embeddings", order := 2, status := "created" } ]
    nextSourceId := 2
    nextRecipeId := 1
    nextEmbeddingId := 1
    nextContentItemId := 1 }

/-- A world where the transcript fetch rejects immediately. -/
def wTranscriptFails : World :=
  { transcript := none, contentInsertFails := false, llmRaw := none,
    embedding := none, recipeInsertFails := false, embeddingInsertFails := false,
    videoInfoOk := true }

/-- Witness for C1: with the transcript fetch failing, the run yields exactly
`[transcriptGenerationFailed]` and the conclusion of
`processRecipePipeline_failure_halts` holds at this input. -/
theorem processRecipePipeline_failure_halts_witness :
    (processRecipePipeline srcW dbW wTranscriptFails 0).1.get? 0 =
      some .transcriptGenerationFailed ∧
    (0 + 1 = (processRecipePipeline srcW dbW wTranscriptFails 0).1.length ∧
      processRecipePipeline srcW dbW wTranscriptFails 0 =
        runPipeline ((RecipePipeline.drop 0).take (0 + 1))
          { recipeSource := srcW, db := dbW, world := wTranscriptFails,
            transcript := none, recipe := none } ∧
      ∀ ctxEnd, (processRecipePipeline srcW dbW wTranscriptFails 0).2 = some ctxEnd →
        ctxEnd.db.jobSteps = dbW.jobSteps ∧
        ∀ s ∈ ctxEnd.db.jobSteps, s.status = "created") :=
  ⟨by decide,
    processRecipePipeline_failure_halts srcW dbW wTranscriptFails 0 0
      .transcriptGenerationFailed (by decide) (by decide) (by decide)⟩

/-! ## C2 — atomic commit of Recipe + Embedding -/

/-- The Recipe/Embedding invariant: every `embeddings` row references an
existing `recipes` row and every `recipes` row has an `embeddings` row
(they are only ever created together in one transaction). -/
def embRecOk (db : DbState) : Bool :=
  (db.embeddings.all fun e => db.recipes.any fun r => r.id == e.recipe_id) &&
  (db.recipes.all fun r => db.embeddings.any fun e => e.recipe_id == r.id)

/-- **C2**: the final commit of `saveStep` is atomic. With the parsed recipe
present, `saveStep` returns either a `RecipeSaved` event — and then exactly one
`recipes` row and one `embeddings` row referencing its id were appended in the
same transaction — or a `RecipeSavingFailed` event — and then the database is
unchanged, so no Recipe or Embedding is persisted. Either way the
"Embedding exists iff its Recipe exists" invariant is preserved. -/
theorem saveStep_atomic_commit (ctx : Ctx) (recipe : ParsedRecipe)
    (hrec : ctx.recipe = some recipe) (hinv : embRecOk ctx.db = true) :
    ∃ ev ctx', saveStep ctx = some (ev, ctx') ∧ embRecOk ctx'.db = true ∧
      ((ev = .recipeSaved ctx.db.nextRecipeId ∧
          ctx'.db.recipes = ctx.db.recipes ++
            [{ id := ctx.db.nextRecipeId
               recipe_source_id := ctx.recipeSource.id
               name := recipe.name
               instructions := recipe.instructions
               ingredients := recipe.ingredients
               tags := recipe.tags }] ∧
          ctx'.db.embeddings = ctx.db.embeddings ++
            [{ id := ctx.db.nextEmbeddingId
               recipe_id := ctx.db.nextRecipeId
               type := "text"
               data := ctx.world.embedding }]) ∨
        (ev = .recipeSavingFailed ∧ ctx'.db = ctx.db)) := by
  unfold saveStep
  rw [hrec]
  cases hemb : ctx.world.embedding with
  | none =>
    exact ⟨.recipeSavingFailed, ctx, rfl, hinv, Or.inr ⟨rfl, rfl⟩⟩
  | some vec =>
    by_cases hri : ctx.world.recipeInsertFails
    · refine ⟨.recipeSavingFailed, ctx, ?_, hinv, Or.inr ⟨rfl, rfl⟩⟩
      simp [hri]
    · by_cases hei : ctx.world.embeddingInsertFails
      · refine ⟨.recipeSavingFailed, ctx, ?_, hinv, Or.inr ⟨rfl, rfl⟩⟩
        simp [hri, hei]
      · refine ⟨.recipeSaved ctx.db.nextRecipeId,
          { ctx with db :=
            { ctx.db with
              recipes := ctx.db.recipes ++
                [{ id := ctx.db.nextRecipeId
                   recipe_source_id := ctx.recipeSource.id
                   name := recipe.name
                   instructions := recipe.instructions
                   ingredients := recipe.ingredients
                   tags := recipe.tags }]
              embeddings := ctx.db.embeddings ++
                [{ id := ctx.db.nextEmbeddingId
                   recipe_id := ctx.db.nextRecipeId
                   type := "text"
                   data := some vec }]
              nextRecipeId := ctx.db.nextRecipeId + 1
              nextEmbeddingId := ctx.db.nextEmbeddingId + 1 } },
          ?_, ?_, ?_⟩
        · simp [hri, hei, hrec]
        · simp only [embRecOk, Bool.and_eq_true, List.all_eq_true,
            List.any_eq_true, beq_iff_eq] at hinv ⊢
          obtain ⟨h1, h2⟩ := hinv
          constructor
          · intro e he
            simp only [List.mem_append, List.mem_singleton] at he
            rcases he with he | he
            · obtain ⟨r, hr, hid⟩ := h1 e he
              exact ⟨r, List.mem_append_left _ hr, hid⟩
            · subst he
              exact ⟨_, List.mem_append_right _ (List.mem_singleton.mpr rfl), rfl⟩
          · intro r hr
            simp only [List.mem_append, List.mem_singleton] at hr
            rcases hr with hr | hr
            · obtain ⟨e, he, hid⟩ := h2 r hr
              exact ⟨e, List.mem_append_left _ he, hid⟩
            · subst hr
              exact ⟨_, List.mem_append_right _ (List.mem_singleton.mpr rfl), rfl⟩
        · left
          refine ⟨rfl, by simp [hemb], by simp [hemb]⟩

/-- A world where every external call succeeds. -/
def wAllOk : World :=
  { transcript := some "melt butter", contentInsertFails := false,
    llmRaw := some { name := some "Toast", instructions := some "toast it",
                     ingredients := [⟨"bread", none⟩], tags := ["breakfast"],
                     errorReason := none },
    embedding := some [1, 0], recipeInsertFails := false,
    embeddingInsertFails := false, videoInfoOk := true }

/-- A concrete context about to run `saveStep` with a parsed recipe present. -/
def ctxSave : Ctx :=
  { recipeSource := srcW, db := dbW, world := wAllOk,
    transcript := some "melt butter",
    recipe := some { name := "toast", instructions := "toast it",
                     ingredients := [⟨"bread", none⟩], tags := ["breakfast"] } }

/-- Witness for C2: at `ctxSave` the hypotheses hold and `saveStep` commits the
recipe and its embedding atomically. -/
theorem saveStep_atomic_commit_witness :
    (ctxSave.recipe =
      some { name := "toast", instructions := "toast it",
             ingredients := [⟨"bread", none⟩], tags := ["breakfast"] } ∧
      embRecOk ctxSave.db = true) ∧
    ∃ ev ctx', saveStep ctxSave = some (ev, ctx') ∧ embRecOk ctx'.db = true ∧
      ((ev = .recipeSaved ctxSave.db.nextRecipeId ∧
          ctx'.db.recipes = ctxSave.db.recipes ++
            [{ id := ctxSave.db.nextRecipeId
               recipe_source_id := ctxSave.recipeSource.id
               name := "toast"
               instructions := "toast it"
               ingredients := [⟨"bread", none⟩]
               tags := ["breakfast"] }] ∧
          ctx'.db.embeddings = ctxSave.db.embeddings ++
            [{ id := ctxSave.db.nextEmbeddingId
               recipe_id := ctxSave.db.nextRecipeId
               type := "text"
               data := ctxSave.world.embedding }]) ∨
        (ev = .recipeSavingFailed ∧ ctx'.db = ctxSave.db)) :=
  ⟨⟨by decide, by decide⟩,
    saveStep_atomic_commit ctxSave
      { name := "toast", instructions := "toast it",
        ingredients := [⟨"bread", none⟩], tags := ["breakfast"] }
      (by decide) (by decide)⟩

/-! ## C3 — dedup: already-committed recipe means zero writes -/

/-- **C3**: when the registration request's external reference already has a
committed Recipe (a `recipe_sources` row for that reference with a `recipes`
row pointing at it), `processRecipeFromSource` yields exactly the
already-exists event carrying the id of a committed recipe registered under
that reference, and performs zero writes: the store it returns is the store it
was given. -/
theorem processRecipeFromSource_alreadyExists (input : UrlParts) (db : DbState)
    (w : World) (externalId : String)
    (hval : validateYoutubeShorts input = some externalId)
    (hex : ∃ s ∈ db.sources, s.external_id = externalId ∧
      ∃ rec ∈ db.recipes, rec.recipe_source_id = s.id) :
    ∃ r, getRecipeByExternalId externalId db = some r ∧
      r ∈ db.recipes ∧
      (∃ s ∈ db.sources, s.id = r.recipe_source_id ∧ s.external_id = externalId) ∧
      processRecipeFromSource input db w = ([.recipeAlreadyExists r.id], some db) := by
  have hfound : (getRecipeByExternalId externalId db).isSome := by
    obtain ⟨s, hs, hsid, rec, hrec, hrecid⟩ := hex
    simp only [getRecipeByExternalId, List.find?_isSome]
    refine ⟨rec, hrec, ?_⟩
    simp only [List.find?_isSome, decide_eq_true_eq]
    exact ⟨s, hs, hrecid.symm, hsid⟩
  obtain ⟨r, hr⟩ := Option.isSome_iff_exists.mp hfound
  have hprops := List.find?_some hr
  have hmem := List.mem_of_find?_eq_some hr
  simp only [decide_eq_true_eq] at hprops
  obtain ⟨s, hsfind⟩ := Option.isSome_iff_exists.mp hprops
  have hsprops := List.find?_some hsfind
  have hsmem := List.mem_of_find?_eq_some hsfind
  simp only [decide_eq_true_eq] at hsprops
  refine ⟨r, hr, hmem, ⟨s, hsmem, hsprops.1, hsprops.2⟩, ?_⟩
  simp [processRecipeFromSource, hval, hr]

/-- Database for the C3 witness: the source `"v1"` has a committed recipe. -/
def dbExisting : DbState :=
  { sources := [srcW]
    recipes := [{ id := 5, recipe_source_id := 1, name := "toast",
                  instructions := "toast it", ingredients := [⟨"bread", none⟩],
                  tags := ["breakfast"] }]
    embeddings := [{ id := 3, recipe_id := 5, type := "text", data := some [1, 0] }]
    contentItems := []
    jobSteps := []
    nextSourceId := 2
    nextRecipeId := 6
    nextEmbeddingId := 4
    nextContentItemId := 1 }

/-- A well-formed YouTube-shorts registration input for video id `"v1"`. -/
def inputV1 : UrlParts := { hostname := "www.youtube.com", pathParts := ["", "shorts", "v1"] }

/-- Witness for C3: registering `"v1"` against `dbExisting` yields
`recipeAlreadyExists` and leaves the store untouched. -/
theorem processRecipeFromSource_alreadyExists_witness :
    (validateYoutubeShorts inputV1 = some "v1" ∧
      ∃ s ∈ dbExisting.sources, s.external_id = "v1" ∧
        ∃ rec ∈ dbExisting.recipes, rec.recipe_source_id = s.id) ∧
    ∃ r, getRecipeByExternalId "v1" dbExisting = some r ∧
      r ∈ dbExisting.recipes ∧
      (∃ s ∈ dbExisting.sources, s.id = r.recipe_source_id ∧ s.external_id = "v1") ∧
      processRecipeFromSource inputV1 dbExisting wAllOk =
        ([.recipeAlreadyExists r.id], some dbExisting) :=
  ⟨⟨by decide, by decide⟩,
    processRecipeFromSource_alreadyExists inputV1 dbExisting wAllOk "v1"
      (by decide) (by decide)⟩

/-! ## C4 — validation failure means zero writes -/

/-- **C4**: when the external reference fails shape validation,
`processRecipeFromSource` yields exactly the validation-error event,
synchronously, and the store it returns is the store it was given: no write of
any kind happened. -/
theorem processRecipeFromSource_validationError (input : UrlParts) (db : DbState)
    (w : World) (hval : validateYoutubeShorts input = none) :
    processRecipeFromSource input db w = ([.recipeInputValidationFailed], some db) := by
  simp [processRecipeFromSource, hval]

/-- Witness for C4: a non-YouTube URL is rejected with no writes. -/
theorem processRecipeFromSource_validationError_witness :
    validateYoutubeShorts { hostname := "youtu.be", pathParts := ["", "v1"] } = none ∧
    processRecipeFromSource { hostname := "youtu.be", pathParts := ["", "v1"] } dbW wAllOk =
      ([.recipeInputValidationFailed], some dbW) :=
  ⟨by decide,
    processRecipeFromSource_validationError
      { hostname := "youtu.be", pathParts := ["", "v1"] } dbW wAllOk (by decide)⟩

/-! ## C5 — existence check precedes Source creation -/

/-- **C5**: for a fresh, well-formed reference, `processRecipeFromSource` checks
the video exists before creating any `recipe_sources` row: if the check fails
it yields exactly the upstream-unavailable event and the store is unchanged
(no Source row); and whenever a run ends with the sources table changed, the
existence check had succeeded. -/
theorem processRecipeFromSource_videoUnavailable (input : UrlParts) (db : DbState)
    (w : World) (externalId : String)
    (hval : validateYoutubeShorts input = some externalId)
    (hnew : getRecipeByExternalId externalId db = none) :
    (w.videoInfoOk = false →
      processRecipeFromSource input db w = ([.videoUnavailable], some db)) ∧
    (∀ db', (processRecipeFromSource input db w).2 = some db' →
      db'.sources ≠ db.sources → w.videoInfoOk = true) := by
  constructor
  · intro hvid
    simp [processRecipeFromSource, hval, hnew, hvid]
  · intro db' hdb' hchanged
    by_cases hvid : w.videoInfoOk = true
    · exact hvid
    · exfalso
      rw [Bool.not_eq_true] at hvid
      simp only [processRecipeFromSource, hval, hnew, hvid] at hdb'
      simp at hdb'
      subst hdb'
      exact hchanged rfl

/-- A world whose video-existence check fails. -/
def wNoVideo : World := { wAllOk with videoInfoOk := false }

/-- Witness for C5: with the existence check failing on fresh video `"v2"`, the
run yields `videoUnavailable` and creates no Source row. -/
theorem processRecipeFromSource_videoUnavailable_witness :
    (validateYoutubeShorts { hostname := "www.youtube.com", pathParts := ["", "shorts", "v2"] } =
        some "v2" ∧
      getRecipeByExternalId "v2" dbW = none ∧ wNoVideo.videoInfoOk = false) ∧
    processRecipeFromSource { hostname := "www.youtube.com", pathParts := ["", "shorts", "v2"] }
        dbW wNoVideo = ([.videoUnavailable], some dbW) :=
  ⟨⟨by decide, by decide, by decide⟩,
    (processRecipeFromSource_videoUnavailable
        { hostname := "www.youtube.com", pathParts := ["", "shorts", "v2"] }
        dbW wNoVideo "v2" (by decide) (by decide)).1 (by decide)⟩

/-! ## C6 — uniqueness violation on the Source insert is not handled -/

/-- **C6** (evaluation at the failing input): `dbW` is exactly the race state —
the pair `("v1", "youtube-shorts")` already has a `recipe_sources` row but no
committed recipe, as after a concurrent registration (or an earlier crashed
job). Registering `"v1"` again passes validation, the dedup lookup and the
existence check, and then `createRecipeSource` hits the uniqueness constraint:
the insert rejects with a `uniqueViolation`, and since nothing catches it
(`// TODO (anikait) - handle on conflict errors`), `processRecipeFromSource`
crashes — yielding no already-exists event — instead of resolving the conflict
benignly. -/
theorem createRecipeSource_uniqueViolation_propagates :
    createRecipeSource "youtube-shorts" "v1" dbW = .error .uniqueViolation ∧
    getRecipeByExternalId "v1" dbW = none ∧
    processRecipeFromSource inputV1 dbW wAllOk = ([], none) := by
  refine ⟨by rfl, by decide, ?_⟩
  decide

/-! ## C7 — hybrid search scoring and ordering -/

/-- The order `searchRecipes` guarantees between adjacent rows: the later row's
final score is not larger. -/
def scoreGE (x y : ScoredRow) : Prop := y.finalScore ≤ x.finalScore

instance : DecidableRel scoreGE := fun x y =>
  inferInstanceAs (Decidable (y.finalScore ≤ x.finalScore))

/-- `insertByScore` only reorders: the result is a permutation of consing. -/
theorem insertByScore_perm (a : ScoredRow) (l : List ScoredRow) :
    (insertByScore a l).Perm (a :: l) := by
  induction l with
  | nil => rfl
  | cons b rest ih =>
    rw [insertByScore]
    by_cases hab : b.finalScore ≤ a.finalScore
    · rw [if_pos hab]
    · rw [if_neg hab]
      exact (ih.cons b).trans (List.Perm.swap a b rest)

/-- `sortByScoreDesc` returns a permutation of its input. -/
theorem sortByScoreDesc_perm (l : List ScoredRow) : (sortByScoreDesc l).Perm l := by
  induction l with
  | nil => rfl
  | cons a rest ih => exact (insertByScore_perm a (sortByScoreDesc rest)).trans (ih.cons a)

/-- Inserting into a score-descending list keeps it score-descending. -/
theorem insertByScore_chain' (a : ScoredRow) (l : List ScoredRow)
    (h : l.Chain' scoreGE) : (insertByScore a l).Chain' scoreGE := by
  induction l with
  | nil => simp [insertByScore]
  | cons b rest ih =>
    rw [List.chain'_cons'] at h
    obtain ⟨hhead, hrest⟩ := h
    rw [insertByScore]
    by_cases hab : b.finalScore ≤ a.finalScore
    · rw [if_pos hab, List.chain'_cons']
      refine ⟨?_, List.chain'_cons'.mpr ⟨hhead, hrest⟩⟩
      intro y hy
      simp at hy
      rw [← hy]
      exact hab
    · rw [if_neg hab, List.chain'_cons']
      refine ⟨?_, ih hrest⟩
      intro y hy
      cases rest with
      | nil =>
        simp [insertByScore] at hy
        rw [← hy]
        exact le_of_lt (lt_of_not_le hab)
      | cons c rest' =>
        rw [insertByScore] at hy
        by_cases hac : c.finalScore ≤ a.finalScore
        · rw [if_pos hac] at hy
          simp at hy
          rw [← hy]
          exact le_of_lt (lt_of_not_le hab)
        · rw [if_neg hac] at hy
          simp at hy
          rw [← hy]
          exact hhead c rfl

/-- The output of `sortByScoreDesc` is score-descending. -/
theorem sortByScoreDesc_chain' (l : List ScoredRow) :
    (sortByScoreDesc l).Chain' scoreGE := by
  induction l with
  | nil => simp [sortByScoreDesc]
  | cons a rest ih => exact insertByScore_chain' a (sortByScoreDesc rest) ih

/-- Two committed recipes with embeddings, for the search scenarios. The scan
order lists recipe 6's embedding first, so any id-ascending order in a result
is produced by the sort, not by the scan. -/
def dbSearch : DbState :=
  { sources := [srcW, { id := 2, external_id := "v2", type := "youtube-shorts" }]
    recipes :=
      [ { id := 5, recipe_source_id := 1, name := "toast", instructions := "toast it",
          ingredients := [⟨"bread", none⟩], tags := ["breakfast"] }
      , { id := 6, recipe_source_id := 2, name := "pasta", instructions := "boil",
          ingredients := [⟨"pasta", none⟩], tags := ["dinner"] } ]
    embeddings :=
      [ { id := 2, recipe_id := 6, type := "text", data := some [2] }
      , { id := 1, recipe_id := 5, type := "text", data := some [1] } ]
    contentItems := []
    jobSteps := []
    nextSourceId := 3
    nextRecipeId := 7
    nextEmbeddingId := 3
    nextContentItemId := 1 }

/-- Distance oracle for the spec's ranking example: recipe 5's embedding is at
cosine distance 0.1 (similarity 0.9), recipe 6's at 0.5 (similarity 0.5). -/
def distEx : Option Vec → Rat := fun v => if v = some [1] then 1/10 else 1/2

/-- Keyword oracle for the spec's ranking example: recipe 5 scores 0.1,
recipe 6 scores 0.9. -/
def kwEx : RecipeRow → Rat := fun r => if r.id = 5 then 1/10 else 9/10

/-- **C7 (amended)**: `searchRecipes` scores exactly the committed recipes that
have an embedding — the result is a permutation of the scored join, each row
scored `finalScore = 0.7 × (1 − cosineDistance) + 0.3 × keywordScore` — and
returns them ordered by `finalScore` descending. (Ties are *not* broken by
recipe id: `finalScore` is the query's only sort key.)
In particular, in the spec's example the
recipe with similarity 0.9 / keyword 0.1 (score 0.66) ranks above the one with
similarity 0.5 / keyword 0.9 (score 0.62). -/
theorem searchRecipes_ranking (cosineDist : Option Vec → Rat)
    (tsRank : RecipeRow → Rat) (db : DbState) :
    (searchRecipes cosineDist tsRank db).Perm
      ((joinEmbeddingsRecipes db).map (scoreRow cosineDist tsRank)) ∧
    (searchRecipes cosineDist tsRank db).Chain' scoreGE ∧
    (∀ er : EmbeddingRow × RecipeRow,
      (scoreRow cosineDist tsRank er).finalScore =
        7/10 * (1 - cosineDist er.1.data) + 3/10 * tsRank er.2 ∧
      (scoreRow cosineDist tsRank er).recipe = er.2) ∧
    (searchRecipes distEx kwEx dbSearch).map
        (fun row => (row.recipe.id, row.finalScore)) = [(5, 33/50), (6, 31/50)] := by
  refine ⟨sortByScoreDesc_perm _, sortByScoreDesc_chain' _, fun er => ⟨rfl, rfl⟩, ?_⟩
  norm_num [searchRecipes, joinEmbeddingsRecipes, dbSearch, distEx, kwEx, scoreRow,
    sortByScoreDesc, insertByScore]

/-- Constant oracles: every row gets `similarity = 1` and `keywordScore = 0`,
hence `finalScore = 0.7` — a tie. -/
def distTie : Option Vec → Rat := fun _ => 0

/-- Constant keyword oracle for the tie scenario. -/
def kwTie : RecipeRow → Rat := fun _ => 0

/-- **C7 (counterexample)**: the claim's tie-break does not exist in the code —
the query orders by `finalScore` only. With both recipes tied at score 0.7 and
the scan producing recipe 6 first, `searchRecipes` returns ids `[6, 5]`: a tie
*not* broken by recipe id ascending. -/
theorem searchRecipes_no_id_tiebreak :
    (searchRecipes distTie kwTie dbSearch).map (fun row => row.recipe.id) = [6, 5] ∧
    (∀ row ∈ searchRecipes distTie kwTie dbSearch, row.finalScore = 7/10) ∧
    ¬ (searchRecipes distTie kwTie dbSearch).Chain'
        (fun x y => x.finalScore > y.finalScore ∨
          (x.finalScore = y.finalScore ∧ x.recipe.id ≤ y.recipe.id)) := by
  refine ⟨?_, ?_, ?_⟩ <;>
    norm_num [searchRecipes, joinEmbeddingsRecipes, dbSearch, distTie, kwTie, scoreRow,
      sortByScoreDesc, insertByScore, List.chain'_cons]

/-! ## Lemmas about the normalization dedup loops -/

/-- The dedup loop only drops entries: its output is a subsequence of its
input (so the surviving entries keep their first-occurrence order). -/
theorem dedupeIngredients_sublist (seen : List String) (l : List Ingredient) :
    (dedupeIngredients seen l).Sublist l := by
  induction l generalizing seen with
  | nil => simp [dedupeIngredients]
  | cons i rest ih =>
    rw [dedupeIngredients]
    by_cases h : i.name ∈ seen
    · rw [if_pos h]
      exact (ih seen).cons i
    · rw [if_neg h]
      exact (ih _).cons₂ i

/-- Entries surviving the dedup loop have names outside the seen set. -/
theorem dedupeIngredients_name_not_mem (seen : List String) (l : List Ingredient)
    (i : Ingredient) (hi : i ∈ dedupeIngredients seen l) : i.name ∉ seen := by
  induction l generalizing seen with
  | nil => simp [dedupeIngredients] at hi
  | cons j rest ih =>
    rw [dedupeIngredients] at hi
    by_cases h : j.name ∈ seen
    · rw [if_pos h] at hi
      exact ih seen hi
    · rw [if_neg h] at hi
      rcases List.mem_cons.mp hi with rfl | hi'
      · exact h
      · intro hmem
        exact ih _ hi' (List.mem_cons_of_mem _ hmem)

/-- The dedup loop's output has pairwise-distinct names. -/
theorem dedupeIngredients_names_nodup (seen : List String) (l : List Ingredient) :
    ((dedupeIngredients seen l).map (fun i => i.name)).Nodup := by
  induction l generalizing seen with
  | nil => simp [dedupeIngredients]
  | cons j rest ih =>
    rw [dedupeIngredients]
    by_cases h : j.name ∈ seen
    · rw [if_pos h]
      exact ih seen
    · rw [if_neg h]
      simp only [List.map_cons, List.nodup_cons]
      refine ⟨?_, ih _⟩
      intro hmem
      obtain ⟨k, hk, hkname⟩ := List.mem_map.mp hmem
      exact dedupeIngredients_name_not_mem _ _ _ hk
        (by rw [hkname]; exact List.mem_cons_self _ _)

/-- For a name not yet seen, the first surviving entry with that name is the
first entry with that name in the input: the dedup loop keeps first
occurrences, with their quantity. -/
theorem dedupeIngredients_find? (seen : List String) (l : List Ingredient)
    (n : String) (hn : n ∉ seen) :
    (dedupeIngredients seen l).find? (fun i => i.name == n) =
      l.find? (fun i => i.name == n) := by
  induction l generalizing seen with
  | nil => simp [dedupeIngredients]
  | cons j rest ih =>
    rw [dedupeIngredients]
    by_cases h : j.name ∈ seen
    · rw [if_pos h]
      have hne : ¬ ((fun i => i.name == n) j) = true := by
        simp only [beq_iff_eq]
        intro hEq
        exact hn (hEq ▸ h)
      rw [@List.find?_cons_of_neg _ (fun i => i.name == n) j rest hne]
      exact ih seen hn
    · rw [if_neg h]
      by_cases hjn : ((fun i => i.name == n) j) = true
      · rw [@List.find?_cons_of_pos _ (fun i => i.name == n) j
            (dedupeIngredients (j.name :: seen) rest) hjn,
          @List.find?_cons_of_pos _ (fun i => i.name == n) j rest hjn]
      · rw [@List.find?_cons_of_neg _ (fun i => i.name == n) j
            (dedupeIngredients (j.name :: seen) rest) hjn,
          @List.find?_cons_of_neg _ (fun i => i.name == n) j rest hjn]
        apply ih
        simp only [List.mem_cons, not_or]
        refine ⟨?_, hn⟩
        intro hEq
        exact hjn (by simp [hEq])

/-- The tag dedup (`new Set`) only drops entries: subsequence of the input. -/
theorem dedupeTags_sublist (seen l : List String) :
    (dedupeTags seen l).Sublist l := by
  induction l generalizing seen with
  | nil => simp [dedupeTags]
  | cons t rest ih =>
    rw [dedupeTags]
    by_cases h : t ∈ seen
    · rw [if_pos h]
      exact (ih seen).cons t
    · rw [if_neg h]
      exact (ih _).cons₂ t

/-- Tags surviving the set-based dedup are outside the seen set. -/
theorem dedupeTags_not_mem (seen l : List String) (t : String)
    (ht : t ∈ dedupeTags seen l) : t ∉ seen := by
  induction l generalizing seen with
  | nil => simp [dedupeTags] at ht
  | cons u rest ih =>
    rw [dedupeTags] at ht
    by_cases h : u ∈ seen
    · rw [if_pos h] at ht
      exact ih seen ht
    · rw [if_neg h] at ht
      rcases List.mem_cons.mp ht with rfl | ht'
      · exact h
      · intro hmem
        exact ih _ ht' (List.mem_cons_of_mem _ hmem)

/-- The deduplicated tag list contains no duplicates. -/
theorem dedupeTags_nodup (seen l : List String) : (dedupeTags seen l).Nodup := by
  induction l generalizing seen with
  | nil => simp [dedupeTags]
  | cons u rest ih =>
    rw [dedupeTags]
    by_cases h : u ∈ seen
    · rw [if_pos h]
      exact ih seen
    · rw [if_neg h]
      rw [List.nodup_cons]
      refine ⟨?_, ih _⟩
      intro hmem
      exact dedupeTags_not_mem _ _ _ hmem (List.mem_cons_self _ _)

/-- Characterization of a successful `parseRecipe`: no truthy rejection reason,
non-null name and instructions, and the result is the normalized, deduplicated
recipe built from the raw fields. -/
theorem parseRecipe_ok_iff (raw : RawRecipe) (p : ParsedRecipe) :
    parseRecipe raw = .ok p ↔
      hasErrorReason raw = false ∧
      ∃ n0 instr0, raw.name = some n0 ∧ raw.instructions = some instr0 ∧
        p = { name := normStr n0
              instructions := instr0
              ingredients := dedupeIngredients [] (raw.ingredients.map normIngredient)
              tags := dedupeTags [] (raw.tags.map normStr) } := by
  unfold parseRecipe
  by_cases herr : hasErrorReason raw
  · simp [herr]
  · rw [Bool.not_eq_true] at herr
    cases hname : raw.name with
    | none => simp [herr, recipeParsedSafeParse, hname]
    | some n0 =>
      cases hinstr : raw.instructions with
      | none => simp [herr, recipeParsedSafeParse, hname, hinstr]
      | some instr0 =>
        simp only [herr, Bool.false_eq_true, if_false, recipeParsedSafeParse,
          hname, hinstr, Option.some.injEq, true_and]
        constructor
        · intro hOk
          refine ⟨n0, instr0, rfl, rfl, ?_⟩
          cases hOk
          rfl
        · rintro ⟨n1, i1, hn1, hi1, hp⟩
          cases hn1
          cases hi1
          rw [hp]

/-! ## C8 — ingredient dedup keeps first occurrences -/

/-- **C8**: in every successfully parsed (hence committed) recipe, the
ingredient list is a subsequence of the normalized input list (first-occurrence
order), its normalized names are pairwise distinct, and for every normalized
name occurring in the input there is exactly one entry, equal to the first
normalized input entry with that name — so it retains the first occurrence's
quantity. -/
theorem parseRecipe_dedupes_ingredients (raw : RawRecipe) (p : ParsedRecipe)
    (h : parseRecipe raw = .ok p) :
    p.ingredients.Sublist (raw.ingredients.map normIngredient) ∧
    (p.ingredients.map (fun i => i.name)).Nodup ∧
    ∀ n ∈ (raw.ingredients.map normIngredient).map (fun i => i.name),
      (p.ingredients.map (fun i => i.name)).count n = 1 ∧
      p.ingredients.find? (fun i => i.name == n) =
        (raw.ingredients.map normIngredient).find? (fun i => i.name == n) := by
  have hing : p.ingredients =
      dedupeIngredients [] (raw.ingredients.map normIngredient) := by
    obtain ⟨-, n0, instr0, -, -, hp⟩ := (parseRecipe_ok_iff raw p).mp h
    rw [hp]
  rw [hing]
  refine ⟨dedupeIngredients_sublist _ _, dedupeIngredients_names_nodup _ _, ?_⟩
  intro n hnmem
  have hfind := dedupeIngredients_find? [] (raw.ingredients.map normIngredient) n
    (by simp)
  refine ⟨?_, hfind⟩
  obtain ⟨i, hi, hiname⟩ := List.mem_map.mp hnmem
  have hks : ((raw.ingredients.map normIngredient).find?
      (fun i => i.name == n)).isSome := by
    rw [List.find?_isSome]
    exact ⟨i, hi, by simp [hiname]⟩
  rw [← hfind] at hks
  obtain ⟨j, hj⟩ := Option.isSome_iff_exists.mp hks
  have hjmem := List.mem_of_find?_eq_some hj
  have hjname : j.name = n := by simpa using List.find?_some hj
  exact List.count_eq_one_of_mem (dedupeIngredients_names_nodup _ _)
    (List.mem_map.mpr ⟨j, hjmem, hjname⟩)

/-- Raw LLM output with case/whitespace-variant duplicate ingredient names. -/
def rawDup : RawRecipe :=
  { name := some "Pasta", instructions := some "boil",
    ingredients := [⟨"Flour ", some "2 cups"⟩, ⟨"flour", some "1 cup"⟩, ⟨"salt", none⟩],
    tags := [], errorReason := none }

/-- The parse of `rawDup`: one `flour` entry with the first quantity. -/
def pDup : ParsedRecipe :=
  { name := "pasta", instructions := "boil",
    ingredients := [⟨"flour", some "2 cups"⟩, ⟨"salt", none⟩], tags := [] }

/-- Witness for C8: the duplicate-named input collapses to one entry keeping
the first occurrence's quantity. -/
theorem parseRecipe_dedupes_ingredients_witness :
    parseRecipe rawDup = .ok pDup ∧
    (pDup.ingredients.Sublist (rawDup.ingredients.map normIngredient) ∧
      (pDup.ingredients.map (fun i => i.name)).Nodup ∧
      ∀ n ∈ (rawDup.ingredients.map normIngredient).map (fun i => i.name),
        (pDup.ingredients.map (fun i => i.name)).count n = 1 ∧
        pDup.ingredients.find? (fun i => i.name == n) =
          (rawDup.ingredients.map normIngredient).find? (fun i => i.name == n)) :=
  ⟨by rfl, parseRecipe_dedupes_ingredients rawDup pDup (by rfl)⟩

/-! ## C9 — normalization invariant of parsed recipes -/

/-- **C9**: every successfully parsed recipe satisfies the normalization
invariant: its name is the trimmed-and-lowercased raw name, every ingredient
name is the trimmed-and-lowercased name of a raw ingredient (with its
quantity), every tag is a trimmed-and-lowercased raw tag, and the tag list has
no duplicates. -/
theorem parseRecipe_normalizes (raw : RawRecipe) (p : ParsedRecipe)
    (h : parseRecipe raw = .ok p) :
    (∃ n0, raw.name = some n0 ∧ p.name = normStr n0) ∧
    (∀ i ∈ p.ingredients, ∃ i0 ∈ raw.ingredients,
      i.name = normStr i0.name ∧ i.quantity = i0.quantity) ∧
    (∀ t ∈ p.tags, ∃ t0 ∈ raw.tags, t = normStr t0) ∧
    p.tags.Nodup := by
  obtain ⟨herr, n0, instr0, hname, hinstr, hp⟩ := (parseRecipe_ok_iff raw p).mp h
  subst hp
  refine ⟨⟨n0, hname, rfl⟩, ?_, ?_, dedupeTags_nodup _ _⟩
  · intro i hi
    have hsub := dedupeIngredients_sublist [] (raw.ingredients.map normIngredient)
    obtain ⟨i0, hi0, hi0eq⟩ := List.mem_map.mp (hsub.subset hi)
    refine ⟨i0, hi0, ?_, ?_⟩ <;> rw [← hi0eq] <;> rfl
  · intro t ht
    have hsub := dedupeTags_sublist [] (raw.tags.map normStr)
    obtain ⟨t0, ht0, ht0eq⟩ := List.mem_map.mp (hsub.subset ht)
    exact ⟨t0, ht0, ht0eq.symm⟩

/-- Raw LLM output with unnormalized name, ingredient and tags. -/
def rawNorm : RawRecipe :=
  { name := some " Pasta ", instructions := some "boil",
    ingredients := [⟨" Flour", some "2 cups"⟩],
    tags := [" Easy", "easy"], errorReason := none }

/-- The parse of `rawNorm`: everything trimmed, lowercased, deduplicated. -/
def pNorm : ParsedRecipe :=
  { name := "pasta", instructions := "boil",
    ingredients := [⟨"flour", some "2 cups"⟩], tags := ["easy"] }

/-- Witness for C9: the unnormalized input parses to its normalized form. -/
theorem parseRecipe_normalizes_witness :
    parseRecipe rawNorm = .ok pNorm ∧
    ((∃ n0, rawNorm.name = some n0 ∧ pNorm.name = normStr n0) ∧
      (∀ i ∈ pNorm.ingredients, ∃ i0 ∈ rawNorm.ingredients,
        i.name = normStr i0.name ∧ i.quantity = i0.quantity) ∧
      (∀ t ∈ pNorm.tags, ∃ t0 ∈ rawNorm.tags, t = normStr t0) ∧
      pNorm.tags.Nodup) :=
  ⟨by rfl, parseRecipe_normalizes rawNorm pNorm (by rfl)⟩

/-! ## C10 — when parseRecipe throws -/

/-- **C10**: `parseRecipe` throws if and only if the raw LLM output carries a
non-empty `error.reason`, or schema validation fails — which happens exactly
when `name` or `instructions` is null; on success it returns precisely the
validated parse of the error-stripped object (the parsed type carries no error
field). -/
theorem parseRecipe_error_iff (raw : RawRecipe) :
    ((∃ msg, parseRecipe raw = .error msg) ↔
      hasErrorReason raw = true ∨ raw.name = none ∨ raw.instructions = none) ∧
    ∀ p, parseRecipe raw = .ok p →
      recipeParsedSafeParse raw.name raw.instructions raw.ingredients raw.tags =
        some p := by
  constructor
  · constructor
    · rintro ⟨msg, hmsg⟩
      by_contra hcon
      push_neg at hcon
      obtain ⟨h1, h2, h3⟩ := hcon
      rw [ne_eq, Bool.not_eq_true] at h1
      obtain ⟨n0, hname⟩ := Option.ne_none_iff_exists'.mp h2
      obtain ⟨instr0, hinstr⟩ := Option.ne_none_iff_exists'.mp h3
      simp [parseRecipe, h1, recipeParsedSafeParse, hname, hinstr] at hmsg
    · intro hcases
      by_cases herr : hasErrorReason raw
      · exact ⟨(raw.errorReason).getD "", by simp [parseRecipe, herr]⟩
      · rw [Bool.not_eq_true] at herr
        rcases hcases with h1 | hname | hinstr
        · rw [herr] at h1
          cases h1
        · refine ⟨"Schema validation failed", ?_⟩
          cases hinstr : raw.instructions <;>
            simp [parseRecipe, herr, recipeParsedSafeParse, hname, hinstr]
        · refine ⟨"Schema validation failed", ?_⟩
          cases hname : raw.name <;>
            simp [parseRecipe, herr, recipeParsedSafeParse, hname, hinstr]
  · intro p hp
    obtain ⟨herr, n0, instr0, hname, hinstr, hpp⟩ := (parseRecipe_ok_iff raw p).mp hp
    subst hpp
    rw [hname, hinstr]
    rfl

/-- Raw LLM output whose `name` is null: schema validation must fail. -/
def rawNoName : RawRecipe :=
  { name := none, instructions := some "boil", ingredients := [], tags := [],
    errorReason := none }

/-- Witness for C10: a null name makes `parseRecipe` throw. -/
theorem parseRecipe_error_iff_witness :
    ∃ msg, parseRecipe rawNoName = .error msg :=
  (parseRecipe_error_iff rawNoName).1.mpr (by decide)
